import Mathlib

/-
Shallow embedding of the brainfuck compiler + interpreter from
`src/main.rs` (martinsiklosi/brainfuck).

Machine integers are modelled as `Nat`:
`u8` cell values are kept in `[0, 256)` with explicit `% 256` at the
wrapping operations, and `usize` pointer/length comparisons against
`usize::MAX` use the explicit constant `usizeMax = 2 ^ 64 - 1`.
The `VecDeque<u8>` tape is modelled as `List Nat` (`push_back` appends,
`push_front` conses).  Rust `panic!`/`expect` aborts are modelled as a
distinguished `crash` outcome of compilation.
-/

namespace BF

/-- Embeds the Rust `enum Instruction` of `src/main.rs`: the eight
unresolved instruction kinds plus the resolved bracket forms carrying the
absolute index of the matching partner. -/
inductive Instruction where
  | IncPointer
  | DecPointer
  | IncByte
  | DecByte
  | Output
  | Input
  | EmptyOpenBracket
  | EmptyCloseBracket
  | OpenBracket (jump_location : Nat)
  | CloseBracket (jump_location : Nat)
  deriving DecidableEq, Repr

/-- Embeds `type Bytecode = Vec<Instruction>`. -/
abbrev Bytecode := List Instruction

/-- Embeds `struct CompileError { message: String }`. -/
structure CompileError where
  message : String
  deriving DecidableEq, Repr

/-- Embeds `struct RuntimeError { message: String }`. -/
structure RuntimeError where
  message : String
  deriving DecidableEq, Repr

/-- The possible outcomes of `match_brackets` / `compile`: a normal
`Ok(bytecode)`, a returned `Err(CompileError)`, or a Rust process abort
(`crash`) caused by `.expect(..)` panicking on an empty stack pop. -/
inductive CompileOutcome where
  | ok (bytecode : Bytecode)
  | err (error : CompileError)
  | crash (message : String)
  deriving DecidableEq, Repr

/-- Embeds `fn parse_character(character: char) -> Option<Instruction>`:
the eight recognized command characters map to their instruction, every
other character maps to `None`. -/
def parse_character (character : Char) : Option Instruction :=
  if character = '>' then some .IncPointer
  else if character = '<' then some .DecPointer
  else if character = '+' then some .IncByte
  else if character = '-' then some .DecByte
  else if character = '.' then some .Output
  else if character = ',' then some .Input
  else if character = '[' then some .EmptyOpenBracket
  else if character = ']' then some .EmptyCloseBracket
  else none

/-- Returns `true` on the unresolved open bracket, `false` otherwise. -/
def isEmptyOpen : Instruction → Bool
  | .EmptyOpenBracket => true
  | _ => false

/-- Returns `true` on the unresolved close bracket, `false` otherwise. -/
def isEmptyClose : Instruction → Bool
  | .EmptyCloseBracket => true
  | _ => false

/-- Returns `true` on either unresolved bracket, `false` otherwise. -/
def isEmptyBracket : Instruction → Bool
  | .EmptyOpenBracket => true
  | .EmptyCloseBracket => true
  | _ => false

/-- Embeds `fn brackets_are_balanced`: the count of `EmptyOpenBracket`
instructions equals the count of `EmptyCloseBracket` instructions. -/
def brackets_are_balanced (bytecode : Bytecode) : Bool :=
  bytecode.countP isEmptyOpen == bytecode.countP isEmptyClose

/-- Embeds the `for (i, instruction) in bytecode.iter().enumerate()` loop
of `fn match_brackets`: `rest` is the suffix of the original bytecode
starting at index `i`, `open_locations` is the stack of pending open
brackets (top at the head, matching `Vec::push`/`Vec::pop`), and `result`
is the mutable clone being rewritten.  `none` models the
`.expect("Brackets should be balanced")` panic on popping an empty
stack. -/
def match_brackets_loop :
    List Instruction → Nat → List Nat → Bytecode → Option Bytecode
  | [], _, _, result => some result
  | instruction :: rest, i, open_locations, result =>
    match instruction with
    | .EmptyOpenBracket =>
      match_brackets_loop rest (i + 1) (i :: open_locations) result
    | .EmptyCloseBracket =>
      match open_locations with
      | [] => none
      | open_location :: open_locations' =>
        match_brackets_loop rest (i + 1) open_locations'
          ((result.set i (.CloseBracket open_location)).set open_location
            (.OpenBracket i))
    | _ => match_brackets_loop rest (i + 1) open_locations result

/-- Embeds `fn match_brackets`: reject count-unbalanced bytecode with a
`CompileError`, otherwise run the rewriting pass; a pop of the empty
stack inside the pass is the `crash` outcome (Rust panic via
`.expect`). -/
def match_brackets (bytecode : Bytecode) : CompileOutcome :=
  if brackets_are_balanced bytecode then
    match match_brackets_loop bytecode 0 [] bytecode with
    | some result => .ok result
    | none => .crash "Brackets should be balanced"
  else .err ⟨"Unbalanced brackets"⟩

/-- Embeds `fn compile`: lex the source characters (dropping unrecognized
ones) and resolve the brackets. -/
def compile (source_code : String) : CompileOutcome :=
  match_brackets (source_code.data.filterMap parse_character)

/-- The value of `usize::MAX` on the 64-bit targets the program is built for. -/
def usizeMax : Nat := 2 ^ 64 - 1

/-- Embeds `struct State`: the `VecDeque<u8>` tape as a list of byte
values, plus the data pointer and instruction pointer. -/
structure State where
  memory : List Nat
  data_pointer : Nat
  instruction_pointer : Nat
  deriving DecidableEq, Repr

/-- Embeds `State::new()`: one zero cell, both pointers at 0. -/
def State.new : State := ⟨[0], 0, 0⟩

/-- Embeds `State::inc_pointer`: error at `usize::MAX`, otherwise move
right, appending a fresh zero cell when the pointer reaches the current
tape length. -/
def State.inc_pointer (self : State) : Except RuntimeError State :=
  if self.data_pointer = usizeMax then
    .error ⟨"Out of memory"⟩
  else
    let data_pointer := self.data_pointer + 1
    let memory :=
      if data_pointer = self.memory.length then self.memory ++ [0]
      else self.memory
    .ok ⟨memory, data_pointer, self.instruction_pointer + 1⟩

/-- Embeds `State::dec_pointer`: error when at cell 0 with a tape of
length `usize::MAX`, otherwise prepend a zero cell when at cell 0
(pointer stays 0), else move left. -/
def State.dec_pointer (self : State) : Except RuntimeError State :=
  if self.data_pointer = 0 ∧ self.memory.length = usizeMax then
    .error ⟨"Out of memory"⟩
  else if self.data_pointer = 0 then
    .ok ⟨0 :: self.memory, self.data_pointer, self.instruction_pointer + 1⟩
  else
    .ok ⟨self.memory, self.data_pointer - 1, self.instruction_pointer + 1⟩

/-- Embeds `State::inc_byte`: `u8` increment of the cell under the data
pointer, with the wraparound written as an explicit `% 256`. -/
def State.inc_byte (self : State) : Except RuntimeError State :=
  .ok ⟨self.memory.set self.data_pointer
        ((self.memory.getD self.data_pointer 0 + 1) % 256),
      self.data_pointer, self.instruction_pointer + 1⟩

/-- Embeds `State::dec_byte`: `u8` decrement of the cell under the data
pointer; `(c + 255) % 256` is the wrapping form of `c - 1` on bytes. -/
def State.dec_byte (self : State) : Except RuntimeError State :=
  .ok ⟨self.memory.set self.data_pointer
        ((self.memory.getD self.data_pointer 0 + 255) % 256),
      self.data_pointer, self.instruction_pointer + 1⟩

/-- Embeds `State::output`: the byte is written to the external sink, the
state only advances the instruction pointer. -/
def State.output (self : State) : Except RuntimeError State :=
  .ok ⟨self.memory, self.data_pointer, self.instruction_pointer + 1⟩

/-- Embeds `State::input`: the external collaborator supplies the bytes of
the one line that the `read!` macro call reads from standard input; if
the line has no byte the call is a `RuntimeError` (state discarded, cell
untouched), otherwise the first byte is stored in the cell under the
data pointer. -/
def State.input (self : State) (line : List Nat) : Except RuntimeError State :=
  match line.head? with
  | some byte =>
    .ok ⟨self.memory.set self.data_pointer byte,
        self.data_pointer, self.instruction_pointer + 1⟩
  | none => .error ⟨"Error taking input"⟩

/-- Embeds `State::open_bracket`: on a zero cell the instruction pointer
is set to `jump_location` (the partner's own index), otherwise it falls
through. -/
def State.open_bracket (self : State) (jump_location : Nat) :
    Except RuntimeError State :=
  if self.memory.getD self.data_pointer 0 = 0 then
    .ok ⟨self.memory, self.data_pointer, jump_location⟩
  else
    .ok ⟨self.memory, self.data_pointer, self.instruction_pointer + 1⟩

/-- Embeds `State::close_bracket`: on a non-zero cell the instruction
pointer is set to `jump_location`, otherwise it falls through. -/
def State.close_bracket (self : State) (jump_location : Nat) :
    Except RuntimeError State :=
  if self.memory.getD self.data_pointer 0 ≠ 0 then
    .ok ⟨self.memory, self.data_pointer, jump_location⟩
  else
    .ok ⟨self.memory, self.data_pointer, self.instruction_pointer + 1⟩

/-- Result of one iteration of the `while` loop in `fn execute`: the loop
exits (`done`), propagates a `RuntimeError` (`err`), or continues with
the next state (`next`). -/
inductive StepResult where
  | done
  | err (error : RuntimeError)
  | next (state : State)
  deriving DecidableEq, Repr

/-- Lifts the `?` operator of the loop body: `Ok` continues, `Err`
propagates. -/
def toStep : Except RuntimeError State → StepResult
  | .ok state => .next state
  | .error error => .err error

/-- Embeds one iteration of the `while state.instruction_pointer <
bytecode.len()` loop of `fn execute`.  The catch-all `_ => ()` arm of the
Rust `match` (reached only on unresolved brackets) leaves the state, and
in particular the instruction pointer, unchanged.  `line` is the input
collaborator's data for a `ReadByte` step. -/
def execStep (bytecode : Bytecode) (state : State) (line : List Nat) :
    StepResult :=
  match bytecode[state.instruction_pointer]? with
  | none => .done
  | some instruction =>
    match instruction with
    | .IncPointer => toStep state.inc_pointer
    | .DecPointer => toStep state.dec_pointer
    | .IncByte => toStep state.inc_byte
    | .DecByte => toStep state.dec_byte
    | .Output => toStep state.output
    | .Input => toStep (state.input line)
    | .OpenBracket jump_location => toStep (state.open_bracket jump_location)
    | .CloseBracket jump_location => toStep (state.close_bracket jump_location)
    | .EmptyOpenBracket => .next state
    | .EmptyCloseBracket => .next state

/-- Runs `n` consecutive `IncPointer` instructions (the state-evolution of
executing a source program of `n` copies of the character given to
`MovePointerForward`), stopping at the first runtime error. -/
def runIncPointer : Nat → State → Except RuntimeError State
  | 0, state => .ok state
  | n + 1, state =>
    match state.inc_pointer with
    | .ok state' => runIncPointer n state'
    | .error error => .error error

/-- The machine-state invariant: the data pointer indexes within the
tape. -/
def StateInv (state : State) : Prop :=
  state.data_pointer < state.memory.length

/-- Well-resolvedness of a bytecode: every resolved open bracket points at
a resolved close bracket whose partner index points back, and vice
versa. -/
def resolvedOk (bytecode : Bytecode) : Prop :=
  ∀ a b : Nat,
    (bytecode[a]? = some (.OpenBracket b) →
      bytecode[b]? = some (.CloseBracket a)) ∧
    (bytecode[a]? = some (.CloseBracket b) →
      bytecode[b]? = some (.OpenBracket a))

/-- Depth-scan over the source characters: `true` when no `]` ever
appears at bracket depth 0 (every close has a preceding unmatched
open). -/
def nestedFrom : List Char → Nat → Bool
  | [], _ => true
  | c :: rest, depth =>
    if c = '[' then nestedFrom rest (depth + 1)
    else if c = ']' then decide (0 < depth) && nestedFrom rest (depth - 1)
    else nestedFrom rest depth

/-- The hypothesis of the valid-nesting claims: the source's loop-open and
loop-close characters occur in equal counts and in valid nesting. -/
def bracketsValid (source : List Char) : Bool :=
  nestedFrom source 0 &&
    (source.countP (· == '[') == source.countP (· == ']'))

/-- The same depth-scan on the lexed instruction sequence. -/
def nestedFromI : List Instruction → Nat → Bool
  | [], _ => true
  | instruction :: rest, depth =>
    match instruction with
    | .EmptyOpenBracket => nestedFromI rest (depth + 1)
    | .EmptyCloseBracket => decide (0 < depth) && nestedFromI rest (depth - 1)
    | _ => nestedFromI rest depth

theorem getD_set_self {l : List Nat} {i : Nat} {v : Nat}
    (h : i < l.length) : (l.set i v).getD i 0 = v := by
  simp [List.getD, List.getElem?_set_self h]

/-- Claim C1: for every tape cell value, `IncrementCell` and
`DecrementCell` modify the byte under the data pointer using 8-bit
wraparound arithmetic; in particular incrementing a cell holding 255
yields 0 and decrementing a cell holding 0 yields 255. -/
theorem c1_cell_wraparound (s : State)
    (h : s.data_pointer < s.memory.length) :
    (s.inc_byte = .ok ⟨s.memory.set s.data_pointer
        ((s.memory.getD s.data_pointer 0 + 1) % 256),
        s.data_pointer, s.instruction_pointer + 1⟩) ∧
    (s.dec_byte = .ok ⟨s.memory.set s.data_pointer
        ((s.memory.getD s.data_pointer 0 + 255) % 256),
        s.data_pointer, s.instruction_pointer + 1⟩) ∧
    (s.memory.getD s.data_pointer 0 = 255 →
      ∀ s', s.inc_byte = .ok s' → s'.memory.getD s'.data_pointer 0 = 0) ∧
    (s.memory.getD s.data_pointer 0 = 0 →
      ∀ s', s.dec_byte = .ok s' → s'.memory.getD s'.data_pointer 0 = 255) := by
  refine ⟨rfl, rfl, ?_, ?_⟩ <;> intro hc s' hs' <;>
    simp only [List.getD_eq_getElem?_getD] at hc <;>
    simp only [State.inc_byte, State.dec_byte, Except.ok.injEq] at hs' <;>
    subst hs' <;>
    simp [List.getElem?_set_self h, hc]

theorem c1_cell_wraparound_witness :
    State.inc_byte ⟨[255], 0, 0⟩ = .ok ⟨[0], 0, 1⟩ ∧
    State.dec_byte ⟨[0], 0, 0⟩ = .ok ⟨[255], 0, 1⟩ :=
  ⟨by simpa using (c1_cell_wraparound ⟨[255], 0, 0⟩ (by simp)).1,
   by simpa using (c1_cell_wraparound ⟨[0], 0, 0⟩ (by simp)).2.1⟩

/-- Claim C2 (code bug): on the source `"]["` — a loop-close with no
preceding unmatched loop-open but with equal open and close counts — the
count-based balance check passes and the matching pass then aborts the
process via `.expect` on an empty stack pop, instead of returning a
`CompileError` as the claim (and the spec) require. -/
theorem c2_close_without_open_crash :
    compile "][" = CompileOutcome.crash "Brackets should be balanced" := by
  rfl

/-- Claim C3 counterexample: in the state with one zero cell under the
pointer, `LoopOpen` with partner index 5 sets the instruction pointer to
5 — the partner's own index — not to `partner + 1 = 6` as the claim
states. -/
theorem c3_counterexample :
    State.open_bracket ⟨[0], 0, 0⟩ 5 = .ok ⟨[0], 0, 5⟩ ∧
    ¬ State.open_bracket ⟨[0], 0, 0⟩ 5 = .ok ⟨[0], 0, 5 + 1⟩ := by
  refine ⟨rfl, ?_⟩
  intro hcontra
  simp [State.open_bracket] at hcontra

/-- Claim C3 amended: when the branch is taken the instruction pointer is
set to `partner` (the matching bracket's own index, which then falls
through on the same cell value), not `partner + 1`: `LoopOpen(partner)`
with a zero cell sets the instruction pointer to `partner`, and
`LoopClose(partner)` with a non-zero cell sets it to `partner`; in the
other case each advances the instruction pointer by 1. -/
theorem c3_branch_targets (s : State) (j : Nat) :
    (s.memory.getD s.data_pointer 0 = 0 →
      s.open_bracket j = .ok ⟨s.memory, s.data_pointer, j⟩) ∧
    (s.memory.getD s.data_pointer 0 ≠ 0 →
      s.open_bracket j =
        .ok ⟨s.memory, s.data_pointer, s.instruction_pointer + 1⟩) ∧
    (s.memory.getD s.data_pointer 0 ≠ 0 →
      s.close_bracket j = .ok ⟨s.memory, s.data_pointer, j⟩) ∧
    (s.memory.getD s.data_pointer 0 = 0 →
      s.close_bracket j =
        .ok ⟨s.memory, s.data_pointer, s.instruction_pointer + 1⟩) := by
  refine ⟨?_, ?_, ?_, ?_⟩ <;> intro h <;>
    simp only [List.getD_eq_getElem?_getD] at h <;>
    simp [State.open_bracket, State.close_bracket, h]

theorem c3_branch_targets_witness :
    State.open_bracket ⟨[0], 0, 0⟩ 5 = .ok ⟨[0], 0, 5⟩ ∧
    State.close_bracket ⟨[1], 0, 7⟩ 2 = .ok ⟨[1], 0, 2⟩ :=
  ⟨(c3_branch_targets ⟨[0], 0, 0⟩ 5).1 (by simp),
   (c3_branch_targets ⟨[1], 0, 7⟩ 2).2.2.1 (by simp)⟩

theorem runIncPointer_from (n : Nat) :
    ∀ k : Nat, k + n < usizeMax →
    runIncPointer n ⟨List.replicate (k + 1) 0, k, k⟩ =
      .ok ⟨List.replicate (k + n + 1) 0, k + n, k + n⟩ := by
  induction n with
  | zero => intro k _; simp [runIncPointer]
  | succ n ih =>
    intro k hk
    have hkmax : ¬ k = usizeMax := by omega
    have hstep : State.inc_pointer ⟨List.replicate (k + 1) 0, k, k⟩ =
        .ok ⟨List.replicate (k + 2) 0, k + 1, k + 1⟩ := by
      simp only [State.inc_pointer, hkmax, if_false, List.length_replicate,
        if_pos rfl, ite_true]
      rw [← List.replicate_succ' (k + 1) 0]
    have hunfold :
        runIncPointer (n + 1) ⟨List.replicate (k + 1) 0, k, k⟩ =
          runIncPointer n ⟨List.replicate (k + 2) 0, k + 1, k + 1⟩ := by
      rw [runIncPointer, hstep]
    rw [hunfold]
    have hrec := ih (k + 1) (by omega)
    rw [show k + 1 + 1 = k + 2 from rfl] at hrec
    have harith : k + 1 + n = k + (n + 1) := by omega
    rw [harith] at hrec
    exact hrec

/-- Claim C4 counterexample: starting from the fresh one-cell state,
executing 30000 `MovePointerForward` instructions and then one more
leaves a tape of 30002 cells, not 30001 as the claim states (each of the
30001 moves appends one cell to the initial single cell). -/
theorem c4_counterexample :
    (runIncPointer 30001 State.new).map (fun s => s.memory.length) ≠
      Except.ok 30001 := by
  have h := runIncPointer_from 30001 0 (by norm_num [usizeMax])
  have hnew : State.new = ⟨List.replicate (0 + 1) 0, 0, 0⟩ := rfl
  rw [hnew, h]
  simp only [Except.map, List.length_replicate]
  intro hcontra
  have h2 := Except.ok.inj hcontra
  omega

/-- Claim C4 amended: on the growable tape, starting from a fresh machine
state, executing 30000 `MovePointerForward` instructions and then one
more succeeds, and afterwards the tape has grown to 30002 cells with the
data pointer at index 30001. -/
theorem c4_growable_tape_moves :
    runIncPointer 30001 State.new =
      .ok ⟨List.replicate 30002 0, 30001, 30001⟩ := by
  have h := runIncPointer_from 30001 0 (by norm_num [usizeMax])
  have hnew : State.new = ⟨List.replicate (0 + 1) 0, 0, 0⟩ := rfl
  rw [hnew, h]

/-- Claim C5 counterexample: in the state whose tape length is already
`usize::MAX` — the maximum representable index — but whose data pointer
is 0, `MovePointerForward` succeeds rather than signalling a runtime
error: the code's error condition tests the data pointer, not the tape
length. -/
theorem inc_pointer_ok {s : State} (h : ¬ s.data_pointer = usizeMax) :
    s.inc_pointer = .ok ⟨(if s.data_pointer + 1 = s.memory.length
        then s.memory ++ [0] else s.memory),
      s.data_pointer + 1, s.instruction_pointer + 1⟩ := by
  simp [State.inc_pointer, h]

theorem c5_counterexample :
    (List.replicate usizeMax (0 : Nat)).length = usizeMax ∧
    State.inc_pointer ⟨List.replicate usizeMax 0, 0, 0⟩ =
      .ok ⟨List.replicate usizeMax 0, 1, 1⟩ := by
  refine ⟨List.length_replicate _ _, ?_⟩
  rw [inc_pointer_ok (s := ⟨List.replicate usizeMax 0, 0, 0⟩)
      (by norm_num [usizeMax])]
  have h1 : ¬ ((0 : Nat) + 1 = (List.replicate usizeMax (0 : Nat)).length) := by
    rw [List.length_replicate]; norm_num [usizeMax]
  simp only [if_neg h1]

/-- Claim C5 amended: `MovePointerForward` signals a runtime error if and
only if the data pointer is already `usize::MAX`; otherwise it
increments the data pointer by 1, appending one zero cell exactly when
the new pointer equals the current tape length.  `MovePointerBackward`
signals a runtime error if and only if the data pointer is 0 and the
tape length is `usize::MAX`; otherwise it prepends a zero cell when the
pointer is at index 0 (the pointer staying at 0) and decrements the
pointer by 1 otherwise. -/
theorem c5_pointer_motion (s : State) :
    ((∃ e, s.inc_pointer = .error e) ↔ s.data_pointer = usizeMax) ∧
    (s.data_pointer ≠ usizeMax →
      s.inc_pointer = .ok ⟨(if s.data_pointer + 1 = s.memory.length
          then s.memory ++ [0] else s.memory),
        s.data_pointer + 1, s.instruction_pointer + 1⟩) ∧
    ((∃ e, s.dec_pointer = .error e) ↔
      s.data_pointer = 0 ∧ s.memory.length = usizeMax) ∧
    (¬ (s.data_pointer = 0 ∧ s.memory.length = usizeMax) →
      s.dec_pointer = .ok ⟨(if s.data_pointer = 0
          then 0 :: s.memory else s.memory),
        (if s.data_pointer = 0 then 0 else s.data_pointer - 1),
        s.instruction_pointer + 1⟩) := by
  refine ⟨?_, ?_, ?_, ?_⟩
  · constructor
    · rintro ⟨e, he⟩
      by_contra hdp
      simp [State.inc_pointer, hdp] at he
    · intro hdp
      exact ⟨⟨"Out of memory"⟩, by simp [State.inc_pointer, hdp]⟩
  · intro hdp
    exact inc_pointer_ok hdp
  · constructor
    · rintro ⟨e, he⟩
      by_contra hcond
      rcases Decidable.em (s.data_pointer = 0) with h0 | h0
      · have hlen : ¬ s.memory.length = usizeMax := fun hl => hcond ⟨h0, hl⟩
        simp [State.dec_pointer, h0, hlen] at he
      · simp [State.dec_pointer, h0] at he
    · intro hcond
      exact ⟨⟨"Out of memory"⟩, by simp [State.dec_pointer, hcond]⟩
  · intro hcond
    rcases Decidable.em (s.data_pointer = 0) with h0 | h0
    · have hlen : ¬ s.memory.length = usizeMax := fun hl => hcond ⟨h0, hl⟩
      simp [State.dec_pointer, h0, hlen]
    · simp [State.dec_pointer, h0]

theorem c5_pointer_motion_witness :
    State.inc_pointer ⟨[0], 0, 0⟩ = .ok ⟨[0, 0], 1, 1⟩ ∧
    State.dec_pointer ⟨[0], 0, 0⟩ = .ok ⟨[0, 0], 0, 1⟩ := by
  constructor
  · simpa using (c5_pointer_motion ⟨[0], 0, 0⟩).2.1 (by norm_num [usizeMax])
  · simpa using (c5_pointer_motion ⟨[0], 0, 0⟩).2.2.2 (by norm_num [usizeMax])

/-- Claim C10: if the input line supplies no byte during a `ReadByte`
instruction, the step signals a runtime error (the state, and so the
cell under the data pointer, is discarded unchanged); if a byte is
available, exactly that byte is stored in the cell under the data
pointer and the instruction pointer advances by 1. -/
theorem c10_read_byte (s : State) (line : List Nat)
    (h : s.data_pointer < s.memory.length) :
    (line = [] → s.input line = .error ⟨"Error taking input"⟩) ∧
    (∀ b rest, line = b :: rest →
      s.input line = .ok ⟨s.memory.set s.data_pointer b, s.data_pointer,
        s.instruction_pointer + 1⟩ ∧
      (s.memory.set s.data_pointer b).getD s.data_pointer 0 = b) := by
  constructor
  · intro hline; subst hline; rfl
  · intro b rest hline; subst hline
    exact ⟨rfl, getD_set_self h⟩

theorem toStep_next {e : Except RuntimeError State} {s' : State}
    (h : toStep e = .next s') : e = .ok s' := by
  cases e with
  | ok s => simpa [toStep] using h
  | error err => simp [toStep] at h

theorem inv_inc_pointer {s s' : State} (h : StateInv s)
    (he : s.inc_pointer = .ok s') : StateInv s' := by
  have h' : s.data_pointer < s.memory.length := h
  simp only [State.inc_pointer] at he
  split_ifs at he with h1 h2
  · obtain rfl := Except.ok.inj he
    show s.data_pointer + 1 < (s.memory ++ [0]).length
    simp only [List.length_append, List.length_cons, List.length_nil]
    omega
  · obtain rfl := Except.ok.inj he
    show s.data_pointer + 1 < s.memory.length
    omega

theorem inv_dec_pointer {s s' : State} (h : StateInv s)
    (he : s.dec_pointer = .ok s') : StateInv s' := by
  have h' : s.data_pointer < s.memory.length := h
  simp only [State.dec_pointer] at he
  split_ifs at he with h1 h2
  · obtain rfl := Except.ok.inj he
    show s.data_pointer < (0 :: s.memory).length
    simp only [List.length_cons]
    omega
  · obtain rfl := Except.ok.inj he
    show s.data_pointer - 1 < s.memory.length
    omega

theorem inv_inc_byte {s s' : State} (h : StateInv s)
    (he : s.inc_byte = .ok s') : StateInv s' := by
  have h' : s.data_pointer < s.memory.length := h
  simp only [State.inc_byte] at he
  obtain rfl := Except.ok.inj he
  simpa [StateInv] using h'

theorem inv_dec_byte {s s' : State} (h : StateInv s)
    (he : s.dec_byte = .ok s') : StateInv s' := by
  have h' : s.data_pointer < s.memory.length := h
  simp only [State.dec_byte] at he
  obtain rfl := Except.ok.inj he
  simpa [StateInv] using h'

theorem inv_output {s s' : State} (h : StateInv s)
    (he : s.output = .ok s') : StateInv s' := by
  have h' : s.data_pointer < s.memory.length := h
  simp only [State.output] at he
  obtain rfl := Except.ok.inj he
  exact h'

theorem inv_input {s s' : State} {line : List Nat} (h : StateInv s)
    (he : s.input line = .ok s') : StateInv s' := by
  have h' : s.data_pointer < s.memory.length := h
  simp only [State.input] at he
  rcases hl : line.head? with _ | b <;> rw [hl] at he
  · exact absurd he (by simp)
  · obtain rfl := Except.ok.inj he
    simpa [StateInv] using h'

theorem inv_open_bracket {s s' : State} {j : Nat} (h : StateInv s)
    (he : s.open_bracket j = .ok s') : StateInv s' := by
  have h' : s.data_pointer < s.memory.length := h
  simp only [State.open_bracket] at he
  split_ifs at he <;> obtain rfl := Except.ok.inj he <;> exact h'

theorem inv_close_bracket {s s' : State} {j : Nat} (h : StateInv s)
    (he : s.close_bracket j = .ok s') : StateInv s' := by
  have h' : s.data_pointer < s.memory.length := h
  simp only [State.close_bracket] at he
  split_ifs at he <;> obtain rfl := Except.ok.inj he <;> exact h'

/-- Claim C8: the machine-state invariant `data_pointer < tape length`
holds in the fresh initial state (one zero cell, pointer 0) and is
preserved by every step of the execution engine, so every tape-cell
access indexes within bounds. -/
theorem c8_state_invariant :
    StateInv State.new ∧
    ∀ (bytecode : Bytecode) (line : List Nat) (s s' : State),
      StateInv s → execStep bytecode s line = .next s' → StateInv s' := by
  constructor
  · exact Nat.one_pos
  · intro bytecode line s s' hinv hstep
    rcases hget : bytecode[s.instruction_pointer]? with _ | instruction
    · simp [execStep, hget] at hstep
    · simp only [execStep, hget] at hstep
      cases instruction with
      | IncPointer => exact inv_inc_pointer hinv (toStep_next hstep)
      | DecPointer => exact inv_dec_pointer hinv (toStep_next hstep)
      | IncByte => exact inv_inc_byte hinv (toStep_next hstep)
      | DecByte => exact inv_dec_byte hinv (toStep_next hstep)
      | Output => exact inv_output hinv (toStep_next hstep)
      | Input => exact inv_input hinv (toStep_next hstep)
      | OpenBracket j => exact inv_open_bracket hinv (toStep_next hstep)
      | CloseBracket j => exact inv_close_bracket hinv (toStep_next hstep)
      | EmptyOpenBracket =>
        cases StepResult.next.inj hstep
        exact hinv
      | EmptyCloseBracket =>
        cases StepResult.next.inj hstep
        exact hinv

theorem c8_state_invariant_witness :
    StateInv State.new ∧ StateInv ⟨[0, 0], 1, 1⟩ :=
  ⟨c8_state_invariant.1,
   c8_state_invariant.2 [Instruction.IncPointer] [] State.new ⟨[0, 0], 1, 1⟩
     c8_state_invariant.1 rfl⟩

theorem c10_read_byte_witness :
    State.input ⟨[9], 0, 0⟩ [] = .error ⟨"Error taking input"⟩ ∧
    State.input ⟨[9], 0, 0⟩ [65] = .ok ⟨[65], 0, 1⟩ :=
  ⟨(c10_read_byte ⟨[9], 0, 0⟩ [] (by simp)).1 rfl,
   by simpa using
     ((c10_read_byte ⟨[9], 0, 0⟩ [65] (by simp)).2 65 [] rfl).1⟩

theorem parse_character_not_resolved (c : Char) (instruction : Instruction)
    (h : parse_character c = some instruction) :
    (∀ j, instruction ≠ .OpenBracket j) ∧
    (∀ j, instruction ≠ .CloseBracket j) := by
  simp only [parse_character] at h
  split_ifs at h <;>
    (obtain rfl := Option.some.inj h; constructor <;> intro j <;> simp)

theorem compile_input_resolvedOk (cs : List Char) :
    resolvedOk (cs.filterMap parse_character) := by
  intro a b
  constructor <;> intro hab <;> exfalso
  · have hmem := List.getElem?_mem hab
    rcases List.mem_filterMap.1 hmem with ⟨c, _, hc⟩
    exact (parse_character_not_resolved c _ hc).1 b rfl
  · have hmem := List.getElem?_mem hab
    rcases List.mem_filterMap.1 hmem with ⟨c, _, hc⟩
    exact (parse_character_not_resolved c _ hc).2 b rfl

theorem match_loop_master (rest : List Instruction) :
    ∀ (stack : List Nat) (result r : Bytecode) (i : Nat),
    match_brackets_loop rest i stack result = some r →
    (∀ m, result[i + m]? = rest[m]?) →
    (∀ k, k ∈ stack → k < i ∧ result[k]? = some Instruction.EmptyOpenBracket) →
    stack.Pairwise (fun a b => b < a) →
    (∀ k, k < i → k ∉ stack →
      ∀ x, result[k]? = some x → isEmptyBracket x = false) →
    r.length = result.length ∧
    r.countP isEmptyOpen + rest.countP isEmptyClose =
      result.countP isEmptyOpen ∧
    (∀ (k : Nat) (x : Instruction), r[k]? = some x → x ≠ Instruction.EmptyCloseBracket) ∧
    (resolvedOk result → resolvedOk r) := by
  induction rest with
  | nil =>
    intro stack result r i hrun hsuffix hstack hpair hsettled
    obtain rfl := Option.some.inj hrun
    refine ⟨rfl, by simp, ?_, fun hres => hres⟩
    intro k x hk
    by_cases hki : k < i
    · by_cases hkstack : k ∈ stack
      · rw [(hstack k hkstack).2] at hk
        obtain rfl := Option.some.inj hk
        simp
      · have hfalse := hsettled k hki hkstack x hk
        intro hxeq
        subst hxeq
        simp [isEmptyBracket] at hfalse
    · exfalso
      have hm := hsuffix (k - i)
      rw [show i + (k - i) = k by omega] at hm
      rw [hk] at hm
      simp at hm
  | cons instruction rest ih =>
    intro stack result r i hrun hsuffix hstack hpair hsettled
    have hhead : result[i]? = some instruction := by simpa using hsuffix 0
    have hnext : ∀ m, result[i + 1 + m]? = rest[m]? := by
      intro m
      have h := hsuffix (m + 1)
      rw [show i + (m + 1) = i + 1 + m by omega] at h
      simpa using h
    cases instruction
    case EmptyOpenBracket =>
      have hrun' : match_brackets_loop rest (i + 1) (i :: stack) result =
          some r := hrun
      have hstack' : ∀ k, k ∈ i :: stack →
          k < i + 1 ∧ result[k]? = some Instruction.EmptyOpenBracket := by
        intro k hk
        rcases List.mem_cons.1 hk with heq | hk'
        · rw [heq]
          exact ⟨Nat.lt_succ_self i, hhead⟩
        · obtain ⟨h1, h2⟩ := hstack k hk'
          exact ⟨Nat.lt_succ_of_lt h1, h2⟩
      have hpair' : (i :: stack).Pairwise (fun a b => b < a) := by
        rw [List.pairwise_cons]
        exact ⟨fun b hb => (hstack b hb).1, hpair⟩
      have hsettled' : ∀ k, k < i + 1 → k ∉ (i :: stack) →
          ∀ x, result[k]? = some x → isEmptyBracket x = false := by
        intro k hk hkn x hx
        have hki : k < i := by
          have hne : ¬ k = i := fun h => hkn (h ▸ List.mem_cons_self i stack)
          omega
        exact hsettled k hki (fun hmem => hkn (List.mem_cons_of_mem _ hmem)) x hx
      obtain ⟨hlen, hcount, hnoEC, hres⟩ :=
        ih (i :: stack) result r (i + 1) hrun' hnext hstack' hpair' hsettled'
      refine ⟨hlen, ?_, hnoEC, hres⟩
      simpa [List.countP_cons, isEmptyClose] using hcount
    case EmptyCloseBracket =>
      cases stack with
      | nil => exact Option.noConfusion hrun
      | cons oloc stack' =>
        have hrun' : match_brackets_loop rest (i + 1) stack'
            ((result.set i (Instruction.CloseBracket oloc)).set oloc (Instruction.OpenBracket i)) =
            some r := hrun
        obtain ⟨holt, hopen⟩ := hstack oloc (List.mem_cons_self _ _)
        have hilen : i < result.length := by
          rcases List.getElem?_eq_some_iff.1 hhead with ⟨hl, _⟩
          exact hl
        have holoclen : oloc < result.length := Nat.lt_trans holt hilen
        have hioloc : ¬ oloc = i := Nat.ne_of_lt holt
        have hget2 : ∀ k,
            ((result.set i (Instruction.CloseBracket oloc)).set oloc
              (Instruction.OpenBracket i))[k]? =
            if k = oloc then some (Instruction.OpenBracket i)
            else if k = i then some (Instruction.CloseBracket oloc)
            else result[k]? := by
          intro k
          by_cases hko : k = oloc
          · subst hko
            rw [if_pos rfl]
            exact List.getElem?_set_self (by simpa using holoclen)
          · rw [if_neg hko, List.getElem?_set_ne (fun h => hko h.symm)]
            by_cases hki : k = i
            · subst hki
              rw [if_pos rfl]
              exact List.getElem?_set_self hilen
            · rw [if_neg hki, List.getElem?_set_ne (fun h => hki h.symm)]
        have hstack_lt_oloc : ∀ k, k ∈ stack' → k < oloc :=
          (List.pairwise_cons.1 hpair).1
        have hnext2 : ∀ m,
            ((result.set i (Instruction.CloseBracket oloc)).set oloc
              (Instruction.OpenBracket i))[i + 1 + m]? = rest[m]? := by
          intro m
          rw [hget2]
          rw [if_neg (show ¬ i + 1 + m = oloc by omega)]
          rw [if_neg (show ¬ i + 1 + m = i by omega)]
          exact hnext m
        have hstack2 : ∀ k, k ∈ stack' → k < i + 1 ∧
            ((result.set i (Instruction.CloseBracket oloc)).set oloc
              (Instruction.OpenBracket i))[k]? = some Instruction.EmptyOpenBracket := by
          intro k hk
          obtain ⟨h1, h2⟩ := hstack k (List.mem_cons_of_mem _ hk)
          refine ⟨Nat.lt_succ_of_lt h1, ?_⟩
          rw [hget2]
          rw [if_neg (Nat.ne_of_lt (hstack_lt_oloc k hk))]
          rw [if_neg (Nat.ne_of_lt h1)]
          exact h2
        have hsettled2 : ∀ k, k < i + 1 → k ∉ stack' →
            ∀ x, ((result.set i (Instruction.CloseBracket oloc)).set oloc
              (Instruction.OpenBracket i))[k]? = some x → isEmptyBracket x = false := by
          intro k hk hkn x hx
          rw [hget2] at hx
          by_cases hko : k = oloc
          · rw [if_pos hko] at hx
            obtain rfl := Option.some.inj hx
            rfl
          · rw [if_neg hko] at hx
            by_cases hki : k = i
            · rw [if_pos hki] at hx
              obtain rfl := Option.some.inj hx
              rfl
            · rw [if_neg hki] at hx
              have hklt : k < i := by omega
              have hknstack : k ∉ oloc :: stack' := by
                intro hmem
                rcases List.mem_cons.1 hmem with h | h
                · exact hko h
                · exact hkn h
              exact hsettled k hklt hknstack x hx
        obtain ⟨hlen, hcount, hnoEC, hres⟩ :=
          ih stack' _ r (i + 1) hrun' hnext2 hstack2 hpair.of_cons hsettled2
        refine ⟨?_, ?_, hnoEC, ?_⟩
        · rw [hlen]
          simp
        · have hvali : result[i] = Instruction.EmptyCloseBracket := by
            obtain ⟨hl, heq⟩ := List.getElem?_eq_some_iff.1 hhead
            exact heq
          have hstep1 : (result.set i (Instruction.CloseBracket oloc)).countP
              isEmptyOpen = result.countP isEmptyOpen := by
            rw [List.countP_set _ _ _ _ hilen, hvali]
            simp [isEmptyOpen]
          have holoclen1 : oloc < (result.set i (Instruction.CloseBracket oloc)).length := by
            simpa using holoclen
          have hvalo : (result.set i (Instruction.CloseBracket oloc))[oloc] =
              Instruction.EmptyOpenBracket := by
            have hq : (result.set i (Instruction.CloseBracket oloc))[oloc]? =
                some Instruction.EmptyOpenBracket := by
              rw [List.getElem?_set_ne (fun h => hioloc h.symm)]
              exact hopen
            obtain ⟨hl, heq⟩ := List.getElem?_eq_some_iff.1 hq
            exact heq
          have hEOtrue : isEmptyOpen Instruction.EmptyOpenBracket = true := rfl
          have hEOfalse : ¬ isEmptyOpen (Instruction.OpenBracket i) = true := by
            simp [isEmptyOpen]
          have hge := List.boole_getElem_le_countP isEmptyOpen
            (result.set i (Instruction.CloseBracket oloc)) oloc holoclen1
          rw [hvalo, if_pos hEOtrue] at hge
          have hstep2 : ((result.set i (Instruction.CloseBracket oloc)).set oloc
              (Instruction.OpenBracket i)).countP isEmptyOpen + 1 =
              (result.set i (Instruction.CloseBracket oloc)).countP isEmptyOpen := by
            rw [List.countP_set _ _ _ _ holoclen1, hvalo,
              if_pos hEOtrue, if_neg hEOfalse]
            omega
          have hconsEC : (Instruction.EmptyCloseBracket :: rest).countP
              isEmptyClose = rest.countP isEmptyClose + 1 := by
            simp [List.countP_cons, isEmptyClose]
          rw [hconsEC]
          omega
        · intro hresult
          apply hres
          intro a b
          constructor
          · intro hab
            rw [hget2 a] at hab
            by_cases hao : a = oloc
            · rw [if_pos hao] at hab
              have hbi : i = b := Instruction.OpenBracket.inj (Option.some.inj hab)
              rw [hget2 b, ← hbi, hao]
              rw [if_neg (fun hcontra => hioloc hcontra.symm), if_pos rfl]
            · rw [if_neg hao] at hab
              by_cases hai : a = i
              · rw [if_pos hai] at hab
                exact absurd (Option.some.inj hab) (by simp)
              · rw [if_neg hai] at hab
                have hba := (hresult a b).1 hab
                rw [hget2 b]
                have hbo : ¬ b = oloc := by
                  intro h
                  rw [h, hopen] at hba
                  exact absurd (Option.some.inj hba) (by simp)
                have hbi : ¬ b = i := by
                  intro h
                  rw [h, hhead] at hba
                  exact absurd (Option.some.inj hba) (by simp)
                rw [if_neg hbo, if_neg hbi]
                exact hba
          · intro hab
            rw [hget2 a] at hab
            by_cases hao : a = oloc
            · rw [if_pos hao] at hab
              exact absurd (Option.some.inj hab) (by simp)
            · rw [if_neg hao] at hab
              by_cases hai : a = i
              · rw [if_pos hai] at hab
                have hbo : oloc = b := Instruction.CloseBracket.inj (Option.some.inj hab)
                rw [hget2 b, ← hbo, hai]
                rw [if_pos rfl]
              · rw [if_neg hai] at hab
                have hba := (hresult a b).2 hab
                rw [hget2 b]
                have hbneo : ¬ b = oloc := by
                  intro h
                  rw [h, hopen] at hba
                  exact absurd (Option.some.inj hba) (by simp)
                have hbi1 : ¬ b = i := by
                  intro h
                  rw [h, hhead] at hba
                  exact absurd (Option.some.inj hba) (by simp)
                rw [if_neg hbneo, if_neg hbi1]
                exact hba
    all_goals {
      have hrun' : match_brackets_loop rest (i + 1) stack result = some r := hrun
      have hstack' : ∀ k, k ∈ stack →
          k < i + 1 ∧ result[k]? = some Instruction.EmptyOpenBracket := by
        intro k hk
        obtain ⟨h1, h2⟩ := hstack k hk
        exact ⟨Nat.lt_succ_of_lt h1, h2⟩
      have hsettled' : ∀ k, k < i + 1 → k ∉ stack →
          ∀ x, result[k]? = some x → isEmptyBracket x = false := by
        intro k hk hkn x hx
        have hcase : k < i ∨ k = i := by omega
        rcases hcase with hlt | rfl
        · exact hsettled k hlt hkn x hx
        · rw [hhead] at hx
          obtain rfl := Option.some.inj hx
          rfl
      obtain ⟨hlen, hcount, hnoEC, hres⟩ :=
        ih stack result r (i + 1) hrun' hnext hstack' hpair hsettled'
      refine ⟨hlen, ?_, hnoEC, hres⟩
      simpa [List.countP_cons, isEmptyClose] using hcount
    }

theorem match_brackets_ok (bytecode result : Bytecode)
    (h : match_brackets bytecode = .ok result) :
    brackets_are_balanced bytecode = true ∧
    match_brackets_loop bytecode 0 [] bytecode = some result := by
  simp only [match_brackets] at h
  split_ifs at h with hb
  · refine ⟨hb, ?_⟩
    rcases hloop : match_brackets_loop bytecode 0 [] bytecode with _ | r2 <;>
      rw [hloop] at h
    · exact absurd h (by simp)
    · obtain rfl := CompileOutcome.ok.inj h
      rfl

theorem match_loop_top (bytecode result : Bytecode)
    (h : match_brackets_loop bytecode 0 [] bytecode = some result) :
    result.length = bytecode.length ∧
    result.countP isEmptyOpen + bytecode.countP isEmptyClose =
      bytecode.countP isEmptyOpen ∧
    (∀ (k : Nat) (x : Instruction), result[k]? = some x →
      x ≠ Instruction.EmptyCloseBracket) ∧
    (resolvedOk bytecode → resolvedOk result) :=
  match_loop_master bytecode [] bytecode result 0 h
    (fun m => by simp)
    (fun k hk => absurd hk (List.not_mem_nil k))
    List.Pairwise.nil
    (fun k hk => absurd hk (Nat.not_lt_zero k))

theorem match_loop_some (rest : List Instruction) :
    ∀ (stack : List Nat) (result : Bytecode) (i : Nat),
    nestedFromI rest stack.length = true →
    ∃ r, match_brackets_loop rest i stack result = some r := by
  induction rest with
  | nil =>
    intro stack result i _
    exact ⟨result, rfl⟩
  | cons instruction rest ih =>
    intro stack result i hnest
    cases instruction
    case EmptyOpenBracket =>
      have hnest' : nestedFromI rest (i :: stack).length = true := by
        simpa [List.length_cons] using hnest
      exact ih (i :: stack) result (i + 1) hnest'
    case EmptyCloseBracket =>
      cases stack with
      | nil => simp [nestedFromI] at hnest
      | cons oloc stack' =>
        have hnest0 : nestedFromI (Instruction.EmptyCloseBracket :: rest)
            (oloc :: stack').length = true := hnest
        simp only [nestedFromI, List.length_cons, Nat.add_sub_cancel,
          Bool.and_eq_true, decide_eq_true_eq] at hnest0
        exact ih stack' _ (i + 1) hnest0.2
    all_goals {
      exact ih stack result (i + 1) hnest
    }

theorem nestedFrom_filterMap (cs : List Char) :
    ∀ d, nestedFromI (cs.filterMap parse_character) d = nestedFrom cs d := by
  induction cs with
  | nil => intro d; rfl
  | cons c cs ih =>
    intro d
    rcases hc : parse_character c with _ | instruction
    · have hno : ¬ c = '[' := fun h => by rw [h] at hc; simp [parse_character] at hc
      have hnc : ¬ c = ']' := fun h => by rw [h] at hc; simp [parse_character] at hc
      simp [List.filterMap_cons, hc, nestedFrom, hno, hnc, ih d]
    · cases instruction
      case EmptyOpenBracket =>
        have hcb : c = '[' := by
          by_contra hne
          simp only [parse_character] at hc
          split_ifs at hc with g1 g2 g3 g4 g5 g6 g7 <;> simp_all
        subst hcb
        simp [List.filterMap_cons, parse_character, nestedFromI, nestedFrom,
          ih (d + 1)]
      case EmptyCloseBracket =>
        have hcb : c = ']' := by
          by_contra hne
          simp only [parse_character] at hc
          split_ifs at hc with g1 g2 g3 g4 g5 g6 g7 <;> simp_all
        subst hcb
        simp [List.filterMap_cons, parse_character, nestedFromI, nestedFrom,
          ih (d - 1)]
      all_goals {
        have hno : ¬ c = '[' := fun h => by
          rw [h] at hc; simp [parse_character] at hc
        have hnc : ¬ c = ']' := fun h => by
          rw [h] at hc; simp [parse_character] at hc
        simp [List.filterMap_cons, hc, nestedFromI, nestedFrom, hno, hnc, ih d]
      }

theorem countP_filterMap_brackets (cs : List Char) :
    (cs.filterMap parse_character).countP isEmptyOpen =
      cs.countP (· == '[') ∧
    (cs.filterMap parse_character).countP isEmptyClose =
      cs.countP (· == ']') := by
  induction cs with
  | nil => exact ⟨rfl, rfl⟩
  | cons c cs ih =>
    rcases hc : parse_character c with _ | instruction
    · have hno : ¬ c = '[' := fun h => by rw [h] at hc; simp [parse_character] at hc
      have hnc : ¬ c = ']' := fun h => by rw [h] at hc; simp [parse_character] at hc
      simp [List.filterMap_cons, hc, List.countP_cons, hno, hnc, ih.1, ih.2]
    · cases instruction
      case EmptyOpenBracket =>
        have hcb : c = '[' := by
          by_contra hne
          simp only [parse_character] at hc
          split_ifs at hc with g1 g2 g3 g4 g5 g6 g7 <;> simp_all
        subst hcb
        simp [List.filterMap_cons, parse_character, List.countP_cons,
          isEmptyOpen, isEmptyClose, ih.1, ih.2]
      case EmptyCloseBracket =>
        have hcb : c = ']' := by
          by_contra hne
          simp only [parse_character] at hc
          split_ifs at hc with g1 g2 g3 g4 g5 g6 g7 <;> simp_all
        subst hcb
        simp [List.filterMap_cons, parse_character, List.countP_cons,
          isEmptyOpen, isEmptyClose, ih.1, ih.2]
      all_goals {
        have hno : ¬ c = '[' := fun h => by
          rw [h] at hc; simp [parse_character] at hc
        have hnc : ¬ c = ']' := fun h => by
          rw [h] at hc; simp [parse_character] at hc
        simp [List.filterMap_cons, hc, List.countP_cons, isEmptyOpen,
          isEmptyClose, hno, hnc, ih.1, ih.2]
      }

theorem length_filterMap_isSome (cs : List Char) :
    (cs.filterMap parse_character).length =
      cs.countP (fun c => (parse_character c).isSome) := by
  induction cs with
  | nil => rfl
  | cons c cs ih =>
    rcases hc : parse_character c with _ | instruction <;>
      simp [List.filterMap_cons, hc, List.countP_cons, ih]

/-- Claim C6: every source whose loop-open and loop-close characters
occur in equal counts and in valid nesting compiles successfully, and the
resolved instruction stream's length equals the count of recognized
command characters in the source. -/
theorem c6_valid_nesting_compiles (s : String)
    (h : bracketsValid s.data = true) :
    ∃ r, compile s = .ok r ∧
      r.length = s.data.countP (fun c => (parse_character c).isSome) := by
  have h' := h
  simp only [bracketsValid, Bool.and_eq_true, beq_iff_eq] at h'
  obtain ⟨hnest, hcnt⟩ := h'
  have htrans := countP_filterMap_brackets s.data
  have hbal : brackets_are_balanced (s.data.filterMap parse_character) =
      true := by
    simp only [brackets_are_balanced, htrans.1, htrans.2, beq_iff_eq]
    exact hcnt
  have hnestI : nestedFromI (s.data.filterMap parse_character)
      ([] : List Nat).length = true := by
    rw [nestedFrom_filterMap]
    exact hnest
  obtain ⟨r, hr⟩ :=
    match_loop_some (s.data.filterMap parse_character) []
      (s.data.filterMap parse_character) 0 hnestI
  refine ⟨r, ?_, ?_⟩
  · show match_brackets (s.data.filterMap parse_character) = .ok r
    rw [match_brackets, if_pos hbal, hr]
  · rw [(match_loop_top _ r hr).1, length_filterMap_isSome]

theorem c6_valid_nesting_compiles_witness :
    bracketsValid "a[b]c".data = true ∧
    ∃ r, compile "a[b]c" = .ok r ∧
      r.length = "a[b]c".data.countP
        (fun c => (parse_character c).isSome) :=
  ⟨by decide, c6_valid_nesting_compiles "a[b]c" (by decide)⟩

/-- Claim C7: in every instruction stream produced by a successful
compilation, every resolved `LoopOpen`'s partner index refers to a
`LoopClose` whose partner index points back, and vice versa, so
`partner(partner(i)) = i` for every resolved loop instruction. -/
theorem c7_partner_involution (s : String) (r : Bytecode)
    (h : compile s = .ok r) :
    ∀ a b : Nat,
      (r[a]? = some (Instruction.OpenBracket b) →
        r[b]? = some (Instruction.CloseBracket a)) ∧
      (r[a]? = some (Instruction.CloseBracket b) →
        r[b]? = some (Instruction.OpenBracket a)) := by
  obtain ⟨hbal, hloop⟩ := match_brackets_ok _ r h
  exact (match_loop_top _ r hloop).2.2.2
    (compile_input_resolvedOk s.data)

theorem c7_partner_involution_witness :
    compile "[]" = .ok [Instruction.OpenBracket 1, Instruction.CloseBracket 0] ∧
    ([Instruction.OpenBracket 1, Instruction.CloseBracket 0] :
      Bytecode)[1]? = some (Instruction.CloseBracket 0) :=
  ⟨by decide,
   (c7_partner_involution "[]"
     [Instruction.OpenBracket 1, Instruction.CloseBracket 0]
     (by decide) 0 1).1 (by decide)⟩

/-- Claim C9: every instruction stream returned by a successful
compilation contains no unresolved loop instructions (no
`EmptyOpenBracket` or `EmptyCloseBracket` remains), so the execution
engine's catch-all branch — the one that leaves the instruction pointer
unchanged — is never reached on compiled programs. -/
theorem c9_no_unresolved (s : String) (r : Bytecode)
    (h : compile s = .ok r) :
    ∀ (k : Nat) (x : Instruction), r[k]? = some x →
      isEmptyBracket x = false := by
  obtain ⟨hbal, hloop⟩ := match_brackets_ok _ r h
  obtain ⟨_, hcount, hnoEC, _⟩ := match_loop_top _ r hloop
  have hb : (s.data.filterMap parse_character).countP isEmptyOpen =
      (s.data.filterMap parse_character).countP isEmptyClose := by
    simpa [brackets_are_balanced, beq_iff_eq] using hbal
  have hzero : r.countP isEmptyOpen = 0 := by omega
  intro k x hk
  have hmem : x ∈ r := List.getElem?_mem hk
  have hnoEO := List.countP_eq_zero.1 hzero x hmem
  have hneEC := hnoEC k x hk
  cases x <;> simp_all [isEmptyOpen, isEmptyBracket]

theorem c9_no_unresolved_witness :
    isEmptyBracket (Instruction.OpenBracket 1) = false :=
  c9_no_unresolved "[]"
    [Instruction.OpenBracket 1, Instruction.CloseBracket 0]
    (by decide) 0 (Instruction.OpenBracket 1) (by decide)


end BF
